import Mathlib

/-!
Verification of the incremental bhavcopy ETL scripts: trading-day calendar
generation, numeric coercion, per-symbol merge with last-write-wins dedup,
fetch-window determination and manifest watermark behaviour, embedded from
the Python sources (fetch_delivery_data.py, deliveryPerc_v2.py,
getStockData_v1.py, bulkToCsvForChart.py, bulkToStockCSV.py).

Dates are embedded as day numbers of the proleptic Gregorian calendar,
day 0 = 0000-01-01 (a Saturday); `dow` uses the pandas convention
Monday = 0 .. Sunday = 6.
-/

/-- Proleptic-Gregorian leap-year rule (the calendar pandas timestamps use). -/
def isLeap (y : Nat) : Prop := (y % 4 = 0 ∧ y % 100 ≠ 0) ∨ y % 400 = 0

instance (y : Nat) : Decidable (isLeap y) :=
  inferInstanceAs (Decidable ((y % 4 = 0 ∧ y % 100 ≠ 0) ∨ y % 400 = 0))

/-- Length of month `m` (1..12) of year `y`. -/
def daysInMonth (y m : Nat) : Nat :=
  if m = 2 then (if isLeap y then 29 else 28)
  else if m = 4 ∨ m = 6 ∨ m = 9 ∨ m = 11 then 30
  else 31

def daysInYear (y : Nat) : Nat := if isLeap y then 366 else 365

/-- Number of leap years in `[0, y)` (year 0 counts as leap). -/
def leapsBefore (y : Nat) : Nat := (y + 3) / 4 - (y + 99) / 100 + (y + 399) / 400

/-- Day number of 1 January of year `y` (day 0 = 0000-01-01). -/
def daysBeforeYear (y : Nat) : Nat := 365 * y + leapsBefore y

/-- Days of year `y` that precede the first day of month `m`. -/
def daysBeforeMonth (y : Nat) : Nat → Nat
  | 0 => 0
  | 1 => 0
  | m + 2 => daysBeforeMonth y (m + 1) + daysInMonth y (m + 1)

/-- Day number of the calendar date `y-m-d`. -/
def toDayNum (y m d : Nat) : Nat := daysBeforeYear y + daysBeforeMonth y m + (d - 1)

/-- `y-m-d` is a real calendar date (the dates `pd.to_datetime` accepts;
invalid ones raise `ValueError` in the holiday loop and are skipped). -/
def isValidDate (y m d : Nat) : Bool := 1 ≤ m && m ≤ 12 && 1 ≤ d && d ≤ daysInMonth y m

/-- pandas `dayofweek`: Monday = 0 .. Sunday = 6 (day 0 is a Saturday). -/
def dow (n : Nat) : Nat := (n + 5) % 7

/-- The calendar year a day number falls in. -/
def yearOf (n : Nat) : Nat := Nat.findGreatest (fun y => daysBeforeYear y ≤ n) (n / 365 + 1)

/-- Zero-based day-of-year of a day number. -/
def doyOf (n : Nat) : Nat := n - daysBeforeYear (yearOf n)

/-- The month (1..12) a day number falls in. -/
def monthOf (n : Nat) : Nat :=
  Nat.findGreatest (fun m => daysBeforeMonth (yearOf n) m ≤ doyOf n) 12

/-- The day-of-month (1..31) of a day number. -/
def dayOf (n : Nat) : Nat := doyOf n - daysBeforeMonth (yearOf n) (monthOf n) + 1

theorem daysBeforeYear_zero : daysBeforeYear 0 = 0 := by decide

theorem daysInYear_pos (y : Nat) : 365 ≤ daysInYear y := by
  unfold daysInYear; split <;> omega

theorem daysBeforeYear_succ (y : Nat) :
    daysBeforeYear (y + 1) = daysBeforeYear y + daysInYear y := by
  unfold daysBeforeYear leapsBefore daysInYear
  by_cases h : isLeap y <;> simp only [h, if_true, if_false] <;> unfold isLeap at h <;> omega

theorem le_daysBeforeYear (y : Nat) : 365 * y ≤ daysBeforeYear y := by
  unfold daysBeforeYear; omega

theorem daysBeforeYear_le_mul (y : Nat) : daysBeforeYear y ≤ 366 * y := by
  induction y with
  | zero => simp [daysBeforeYear_zero]
  | succ n ih =>
    rw [daysBeforeYear_succ]
    have : daysInYear n ≤ 366 := by unfold daysInYear; split <;> omega
    omega

theorem daysBeforeYear_mono {y y' : Nat} (h : y ≤ y') :
    daysBeforeYear y ≤ daysBeforeYear y' := by
  induction y' with
  | zero => have hy : y = 0 := by omega
            subst hy; exact Nat.le_refl _
  | succ n ih =>
    rcases Nat.lt_or_ge y (n + 1) with h' | h'
    · have := ih (by omega)
      rw [daysBeforeYear_succ]
      omega
    · have hy : y = n + 1 := by omega
      subst hy; exact Nat.le_refl _

theorem daysBeforeYear_strict_mono {y y' : Nat} (h : y < y') :
    daysBeforeYear y + daysInYear y ≤ daysBeforeYear y' := by
  calc daysBeforeYear y + daysInYear y = daysBeforeYear (y + 1) := (daysBeforeYear_succ y).symm
    _ ≤ daysBeforeYear y' := daysBeforeYear_mono (by omega)

theorem daysInMonth_pos (y m : Nat) : 1 ≤ daysInMonth y m := by
  unfold daysInMonth; split
  · split <;> omega
  · split <;> omega

theorem daysBeforeMonth_succ (y m : Nat) (h : 1 ≤ m) :
    daysBeforeMonth y (m + 1) = daysBeforeMonth y m + daysInMonth y m := by
  match m, h with
  | 1, _ => simp [daysBeforeMonth]
  | (k + 2), _ => rfl

theorem daysBeforeMonth_thirteen (y : Nat) : daysBeforeMonth y 13 = daysInYear y := by
  by_cases h : isLeap y <;>
    simp [daysBeforeMonth, daysInMonth, daysInYear, h]

theorem daysBeforeMonth_mono (y : Nat) {m m' : Nat} (h1 : 1 ≤ m) (h : m ≤ m') :
    daysBeforeMonth y m ≤ daysBeforeMonth y m' := by
  induction m' with
  | zero => omega
  | succ k ih =>
    rcases Nat.lt_or_ge m (k + 1) with h' | h'
    · have hk : 1 ≤ k := by omega
      have := ih (by omega)
      rw [daysBeforeMonth_succ y k hk]
      have := daysInMonth_pos y k
      omega
    · have hm : m = k + 1 := by omega
      subst hm; exact Nat.le_refl _

theorem daysBeforeMonth_add_le (y : Nat) {m : Nat} (h1 : 1 ≤ m) (h2 : m ≤ 12) :
    daysBeforeMonth y m + daysInMonth y m ≤ daysInYear y := by
  calc daysBeforeMonth y m + daysInMonth y m = daysBeforeMonth y (m + 1) :=
        (daysBeforeMonth_succ y m h1).symm
    _ ≤ daysBeforeMonth y 13 := daysBeforeMonth_mono y (by omega) (by omega)
    _ = daysInYear y := daysBeforeMonth_thirteen y

theorem isValidDate_iff {y m d : Nat} :
    isValidDate y m d = true ↔ 1 ≤ m ∧ m ≤ 12 ∧ 1 ≤ d ∧ d ≤ daysInMonth y m := by
  simp [isValidDate, Bool.and_eq_true, decide_eq_true_eq, and_assoc]

theorem daysBeforeYear_le_toDayNum (y m d : Nat) : daysBeforeYear y ≤ toDayNum y m d := by
  unfold toDayNum; omega

theorem toDayNum_lt_next {y m d : Nat} (h1 : 1 ≤ m) (h2 : m ≤ 12) (h4 : d ≤ daysInMonth y m) :
    toDayNum y m d < daysBeforeYear (y + 1) := by
  rw [daysBeforeYear_succ]
  have hb := daysBeforeMonth_add_le y h1 h2
  have hp := daysInMonth_pos y m
  unfold toDayNum
  omega

theorem yearOf_toDayNum {y m d : Nat} (h : isValidDate y m d = true) :
    yearOf (toDayNum y m d) = y := by
  rw [isValidDate_iff] at h
  obtain ⟨h1, h2, h3, h4⟩ := h
  have hle : daysBeforeYear y ≤ toDayNum y m d := daysBeforeYear_le_toDayNum y m d
  have hlt : toDayNum y m d < daysBeforeYear (y + 1) := toDayNum_lt_next h1 h2 h4
  have hbound : y ≤ toDayNum y m d / 365 + 1 := by
    have h365 := le_daysBeforeYear y
    have hy : y ≤ toDayNum y m d / 365 :=
      (Nat.le_div_iff_mul_le (by omega)).mpr (by omega)
    omega
  unfold yearOf
  rw [Nat.findGreatest_eq_iff]
  refine ⟨hbound, fun _ => hle, fun n hlt' _ hP => ?_⟩
  have : daysBeforeYear (y + 1) ≤ daysBeforeYear n := daysBeforeYear_mono (by omega)
  omega

theorem doyOf_toDayNum {y m d : Nat} (h : isValidDate y m d = true) :
    doyOf (toDayNum y m d) = daysBeforeMonth y m + (d - 1) := by
  unfold doyOf
  rw [yearOf_toDayNum h]
  unfold toDayNum
  omega

theorem monthOf_toDayNum {y m d : Nat} (h : isValidDate y m d = true) :
    monthOf (toDayNum y m d) = m := by
  have h' := h
  rw [isValidDate_iff] at h'
  obtain ⟨h1, h2, h3, h4⟩ := h'
  unfold monthOf
  rw [yearOf_toDayNum h, doyOf_toDayNum h]
  rw [Nat.findGreatest_eq_iff]
  refine ⟨h2, fun _ => by omega, fun n hlt' hle' hP => ?_⟩
  have hstep : daysBeforeMonth y (m + 1) = daysBeforeMonth y m + daysInMonth y m :=
    daysBeforeMonth_succ y m h1
  have hmono : daysBeforeMonth y (m + 1) ≤ daysBeforeMonth y n :=
    daysBeforeMonth_mono y (by omega) (by omega)
  omega

theorem dayOf_toDayNum {y m d : Nat} (h : isValidDate y m d = true) :
    dayOf (toDayNum y m d) = d := by
  have h' := h
  rw [isValidDate_iff] at h'
  obtain ⟨h1, h2, h3, h4⟩ := h'
  unfold dayOf
  rw [yearOf_toDayNum h, monthOf_toDayNum h, doyOf_toDayNum h]
  omega

theorem daysBeforeYear_yearOf_le (n : Nat) : daysBeforeYear (yearOf n) ≤ n := by
  have h0 : daysBeforeYear 0 ≤ n := by rw [daysBeforeYear_zero]; omega
  unfold yearOf
  exact Nat.findGreatest_spec (P := fun y => daysBeforeYear y ≤ n) (m := 0) (Nat.zero_le _) h0

theorem lt_daysBeforeYear_yearOf_succ (n : Nat) : n < daysBeforeYear (yearOf n + 1) := by
  by_cases hb : yearOf n + 1 ≤ n / 365 + 1
  · by_contra hc
    push_neg at hc
    have := Nat.le_findGreatest (P := fun y => daysBeforeYear y ≤ n) hb hc
    unfold yearOf at this
    omega
  · push_neg at hb
    have hle : n / 365 ≤ yearOf n := by omega
    have h365 : 365 * (yearOf n + 1) ≤ daysBeforeYear (yearOf n + 1) :=
      le_daysBeforeYear _
    have : 365 * (n / 365) + 365 ≤ 365 * (yearOf n + 1) := by
      have := Nat.mul_le_mul_left 365 hle
      omega
    have hdiv : n < 365 * (n / 365) + 365 := by
      have := Nat.div_add_mod n 365
      have := Nat.mod_lt n (y := 365) (by omega)
      omega
    omega

theorem doyOf_lt (n : Nat) : doyOf n < daysInYear (yearOf n) := by
  have h1 := daysBeforeYear_yearOf_le n
  have h2 := lt_daysBeforeYear_yearOf_succ n
  rw [daysBeforeYear_succ] at h2
  unfold doyOf
  omega

theorem monthOf_pos (n : Nat) : 1 ≤ monthOf n := by
  unfold monthOf
  exact Nat.le_findGreatest (by omega) (by simp [daysBeforeMonth])

theorem monthOf_le (n : Nat) : monthOf n ≤ 12 := Nat.findGreatest_le 12

theorem daysBeforeMonth_monthOf_le (n : Nat) :
    daysBeforeMonth (yearOf n) (monthOf n) ≤ doyOf n := by
  unfold monthOf
  exact Nat.findGreatest_spec (P := fun m => daysBeforeMonth (yearOf n) m ≤ doyOf n)
    (m := 1) (by omega) (by simp [daysBeforeMonth])

theorem doyOf_lt_next_month (n : Nat) :
    doyOf n < daysBeforeMonth (yearOf n) (monthOf n) + daysInMonth (yearOf n) (monthOf n) := by
  rcases Nat.lt_or_ge (monthOf n) 12 with h12 | h12
  · have hng : ¬ daysBeforeMonth (yearOf n) (monthOf n + 1) ≤ doyOf n := by
      unfold monthOf at h12 ⊢
      exact Nat.findGreatest_is_greatest
        (P := fun m => daysBeforeMonth (yearOf n) m ≤ doyOf n) (n := 12)
        (Nat.lt_succ_self _) (by omega)
    rw [daysBeforeMonth_succ _ _ (monthOf_pos n)] at hng
    omega
  · have h12' : monthOf n = 12 := by have := monthOf_le n; omega
    have hd := doyOf_lt n
    have h13 := daysBeforeMonth_thirteen (yearOf n)
    have hstep : daysBeforeMonth (yearOf n) 13 =
        daysBeforeMonth (yearOf n) 12 + daysInMonth (yearOf n) 12 :=
      daysBeforeMonth_succ _ 12 (by omega)
    rw [h12']
    omega

theorem isValidDate_of_dayNum (n : Nat) :
    isValidDate (yearOf n) (monthOf n) (dayOf n) = true := by
  rw [isValidDate_iff]
  have h1 := monthOf_pos n
  have h2 := monthOf_le n
  have h3 := daysBeforeMonth_monthOf_le n
  have h4 := doyOf_lt_next_month n
  refine ⟨h1, h2, by unfold dayOf; omega, by unfold dayOf; omega⟩

theorem toDayNum_of_dayNum (n : Nat) : toDayNum (yearOf n) (monthOf n) (dayOf n) = n := by
  have h1 := daysBeforeYear_yearOf_le n
  have h3 := daysBeforeMonth_monthOf_le n
  unfold toDayNum dayOf
  unfold doyOf at h3 ⊢
  omega

theorem yearOf_mono {n n' : Nat} (h : n ≤ n') : yearOf n ≤ yearOf n' := by
  by_contra hc
  push_neg at hc
  have h1 : daysBeforeYear (yearOf n' + 1) ≤ daysBeforeYear (yearOf n) :=
    daysBeforeYear_mono (by omega)
  have h2 := lt_daysBeforeYear_yearOf_succ n'
  have h3 := daysBeforeYear_yearOf_le n
  omega

/-- Day numbers produced by the Python holiday loop: for each year in
`[sy, ey]` and each `(month, day)` entry, the date `year-month-day` when it
is constructible (`pd.to_datetime` raises `ValueError` on an impossible
date, which the loop swallows with `pass`). -/
def holidayDayNums (sy ey : Nat) (holidays_month_day : List (Nat × Nat)) : List Nat :=
  (List.range' sy (ey + 1 - sy)).flatMap
    (fun y => (holidays_month_day.filter (fun p => isValidDate y p.1 p.2)).map
      (fun p => toDayNum y p.1 p.2))

/-- `generate_valid_dates` from fetch_delivery_data.py (and the identical
copies in deliveryPerc_v2.py and getStockData_v1.py): `pd.date_range(start,
end)` filtered to `dayofweek < 5`, minus the holiday dates of each year of
the range. -/
def generate_valid_dates (start end_ : Nat) (holidays_month_day : List (Nat × Nat)) : List Nat :=
  let all_dates := List.range' start (end_ + 1 - start)
  let working_days := all_dates.filter (fun d => decide (dow d < 5))
  let holidays := holidayDayNums (yearOf start) (yearOf end_) holidays_month_day
  working_days.filter (fun d => decide (d ∉ holidays))

theorem mem_holidayDayNums {sy ey d : Nat} {H : List (Nat × Nat)} :
    d ∈ holidayDayNums sy ey H ↔
      ∃ y, sy ≤ y ∧ y < sy + (ey + 1 - sy) ∧
        ∃ p ∈ H, isValidDate y p.1 p.2 = true ∧ d = toDayNum y p.1 p.2 := by
  unfold holidayDayNums
  rw [List.mem_flatMap]
  constructor
  · rintro ⟨y, hy, hmem⟩
    rw [List.mem_range'_1] at hy
    rw [List.mem_map] at hmem
    obtain ⟨p, hp, hd⟩ := hmem
    rw [List.mem_filter] at hp
    exact ⟨y, hy.1, hy.2, p, hp.1, hp.2, hd.symm⟩
  · rintro ⟨y, hy1, hy2, p, hp, hv, rfl⟩
    refine ⟨y, List.mem_range'_1.mpr ⟨hy1, hy2⟩, List.mem_map.mpr ⟨p, ?_, rfl⟩⟩
    rw [List.mem_filter]
    exact ⟨hp, hv⟩

theorem holiday_mem_iff {s e d : Nat} {H : List (Nat × Nat)} (hs : s ≤ d) (he : d ≤ e) :
    d ∈ holidayDayNums (yearOf s) (yearOf e) H ↔ (monthOf d, dayOf d) ∈ H := by
  rw [mem_holidayDayNums]
  constructor
  · rintro ⟨y, hy1, hy2, p, hp, hv, rfl⟩
    have hm := monthOf_toDayNum hv
    have hd := dayOf_toDayNum hv
    rw [hm, hd]
    exact hp
  · intro hp
    have h1 := yearOf_mono hs
    have h2 := yearOf_mono he
    exact ⟨yearOf d, h1, by omega, (monthOf d, dayOf d), hp,
      isValidDate_of_dayNum d, (toDayNum_of_dayNum d).symm⟩

theorem mem_generate_valid_dates {s e d : Nat} {H : List (Nat × Nat)} :
    d ∈ generate_valid_dates s e H ↔
      s ≤ d ∧ d ≤ e ∧ dow d < 5 ∧ (monthOf d, dayOf d) ∉ H := by
  unfold generate_valid_dates
  constructor
  · intro hmem
    rw [List.mem_filter] at hmem
    obtain ⟨hmem1, hdec⟩ := hmem
    rw [List.mem_filter] at hmem1
    obtain ⟨hrange, hdow⟩ := hmem1
    rw [List.mem_range'_1] at hrange
    have hs : s ≤ d := hrange.1
    have he : d ≤ e := by omega
    rw [decide_eq_true_eq] at hdec
    rw [holiday_mem_iff hs he] at hdec
    rw [decide_eq_true_eq] at hdow
    exact ⟨hs, he, hdow, hdec⟩
  · rintro ⟨hs, he, hdow, hH⟩
    rw [List.mem_filter, List.mem_filter, List.mem_range'_1]
    refine ⟨⟨⟨hs, by omega⟩, by rw [decide_eq_true_eq]; exact hdow⟩, ?_⟩
    rw [decide_eq_true_eq, holiday_mem_iff hs he]
    exact hH

theorem generate_valid_dates_sorted (s e : Nat) (H : List (Nat × Nat)) :
    List.Sorted (· < ·) (generate_valid_dates s e H) := by
  unfold generate_valid_dates
  exact List.Pairwise.filter _ (List.Pairwise.filter _ (List.pairwise_lt_range' s _ 1))

theorem generate_valid_dates_nil {s e : Nat} (h : e < s) (H : List (Nat × Nat)) :
    generate_valid_dates s e H = [] := by
  have h0 : e + 1 - s = 0 := by omega
  unfold generate_valid_dates
  rw [h0]
  rfl

/-- C3: for every pair of dates (start, end) and every holiday table of
(month, day) pairs, `generate_valid_dates` returns exactly the dates in the
inclusive interval [start, end] whose weekday is Monday through Friday and
whose (month, day) is not in the holiday table, in ascending order with no
duplicates, and returns the empty sequence when start > end. -/
theorem generate_valid_dates_spec (s e : Nat) (H : List (Nat × Nat)) :
    (∀ d, d ∈ generate_valid_dates s e H ↔
        s ≤ d ∧ d ≤ e ∧ dow d < 5 ∧ (monthOf d, dayOf d) ∉ H)
    ∧ List.Sorted (· < ·) (generate_valid_dates s e H)
    ∧ (e < s → generate_valid_dates s e H = []) :=
  ⟨fun _ => mem_generate_valid_dates, generate_valid_dates_sorted s e H,
    fun h => generate_valid_dates_nil h H⟩

theorem generate_valid_dates_spec_witness :
    generate_valid_dates 9 3 [(1, 6)] = [] ∧ generate_valid_dates 3 9 [(1, 6)] = [3, 4, 6, 9] :=
  ⟨(generate_valid_dates_spec 9 3 [(1, 6)]).2.2 (by decide), by decide⟩

/-- Value of a float64 cell after `pd.to_numeric`: a finite rational,
positive/negative infinity, or NaN.  pandas/numpy float arithmetic is total:
special values propagate instead of raising. -/
inductive FVal where
  | nan : FVal
  | pinf : FVal
  | ninf : FVal
  | fin : Rat → FVal
deriving DecidableEq

/-- IEEE-style subtraction on float cells (sign of zero ignored). -/
def fsub : FVal → FVal → FVal
  | .nan, _ => .nan
  | _, .nan => .nan
  | .pinf, .pinf => .nan
  | .pinf, _ => .pinf
  | .ninf, .ninf => .nan
  | .ninf, _ => .ninf
  | .fin _, .pinf => .ninf
  | .fin _, .ninf => .pinf
  | .fin a, .fin b => .fin (a - b)

/-- IEEE-style division on float cells: finite / 0 gives ±inf (or NaN for
0 / 0), never an exception — numpy float division by zero does not raise. -/
def fdiv : FVal → FVal → FVal
  | .nan, _ => .nan
  | _, .nan => .nan
  | .pinf, .pinf => .nan
  | .pinf, .ninf => .nan
  | .ninf, .pinf => .nan
  | .ninf, .ninf => .nan
  | .pinf, .fin b => if 0 ≤ b then .pinf else .ninf
  | .ninf, .fin b => if 0 ≤ b then .ninf else .pinf
  | .fin _, .pinf => .fin 0
  | .fin _, .ninf => .fin 0
  | .fin a, .fin b =>
      if b = 0 then (if a = 0 then .nan else if 0 < a then .pinf else .ninf)
      else .fin (a / b)

/-- IEEE-style multiplication on float cells. -/
def fmul : FVal → FVal → FVal
  | .nan, _ => .nan
  | _, .nan => .nan
  | .pinf, .pinf => .pinf
  | .pinf, .ninf => .ninf
  | .ninf, .pinf => .ninf
  | .ninf, .ninf => .pinf
  | .pinf, .fin b => if b = 0 then .nan else if 0 < b then .pinf else .ninf
  | .ninf, .fin b => if b = 0 then .nan else if 0 < b then .ninf else .pinf
  | .fin a, .pinf => if a = 0 then .nan else if 0 < a then .pinf else .ninf
  | .fin a, .ninf => if a = 0 then .nan else if 0 < a then .ninf else .pinf
  | .fin a, .fin b => .fin (a * b)

/-- Round half to even to an integer (numpy rounding mode). -/
def rhe (q : Rat) : Int :=
  let f := ⌊q⌋
  if q - f < 1 / 2 then f
  else if (1 : Rat) / 2 < q - f then f + 1
  else if f % 2 = 0 then f else f + 1

/-- Round a rational to 2 decimal places, half to even. -/
def round2 (q : Rat) : Rat := (rhe (q * 100) : Rat) / 100

/-- `.round(2)` on a float cell: NaN and infinities pass through. -/
def fround2 : FVal → FVal
  | .fin q => .fin (round2 q)
  | v => v

/-- `Change_Percentage` from deliveryPerc_v2.py line 130 / getStockData_v1.py
line 69: `((CLOSE_PRICE - PREV_CLOSE) / PREV_CLOSE * 100).round(2)`. -/
def change_Percentage (close prevClose : FVal) : FVal :=
  fround2 (fmul (fdiv (fsub close prevClose) prevClose) (.fin 100))

/-- C8: changePercent is (close − prevClose) / prevClose × 100 rounded to
2 decimal places, and when prevClose is zero or NaN the result is not a
finite number (NaN or ±inf) rather than a fatal division-by-zero; in the
embedding all operators are total, mirroring that pandas float arithmetic
never raises. -/
theorem change_Percentage_spec (c p : FVal) :
    (∀ a b : Rat, c = .fin a → p = .fin b → b ≠ 0 →
      change_Percentage c p = .fin (round2 ((a - b) / b * 100)))
    ∧ ((p = .fin 0 ∨ p = .nan) → ∀ q : Rat, change_Percentage c p ≠ .fin q) := by
  constructor
  · rintro a b rfl rfl hb
    simp [change_Percentage, fsub, fdiv, fmul, fround2, hb]
  · rintro (rfl | rfl) q
    · cases c with
      | nan => simp [change_Percentage, fsub, fdiv, fmul, fround2]
      | pinf => simp [change_Percentage, fsub, fdiv, fmul, fround2]
      | ninf => simp [change_Percentage, fsub, fdiv, fmul, fround2]
      | fin a =>
        rcases lt_trichotomy a 0 with h | h | h
        · simp [change_Percentage, fsub, fdiv, fmul, fround2, h, not_lt_of_gt h, h.ne]
        · subst h
          simp [change_Percentage, fsub, fdiv, fmul, fround2]
        · simp [change_Percentage, fsub, fdiv, fmul, fround2, h, h.ne.symm]
    · cases c <;> simp [change_Percentage, fsub, fdiv, fmul, fround2]

theorem change_Percentage_spec_witness :
    change_Percentage (.fin 110) (.fin 100) = .fin 10
    ∧ change_Percentage (.fin 1) (.fin 0) ≠ .fin 0 := by
  constructor
  · have h := (change_Percentage_spec (.fin 110) (.fin 100)).1 110 100 rfl rfl (by norm_num)
    rw [h]
    norm_num [round2, rhe]
  · exact (change_Percentage_spec (.fin 1) (.fin 0)).2 (Or.inl rfl) 0

/-- A DataFrame cell: raw text as read from the CSV, or an already-numeric
float64 value. -/
inductive Cell where
  | s : String → Cell
  | n : FVal → Cell
deriving DecidableEq

def digitVal? (c : Char) : Option Nat :=
  if c.isDigit then some (c.toNat - 48) else none

def digitsToNat? (cs : List Char) : Option Nat :=
  cs.foldlM (fun n c => (digitVal? c).map (fun v => n * 10 + v)) 0

def isSpaceChar (c : Char) : Bool := c = ' ' || c = '\t' || c = '\n' || c = '\r'

/-- Strip leading and trailing whitespace from a character list. -/
def trimChars (cs : List Char) : List Char :=
  ((cs.dropWhile isSpaceChar).reverse.dropWhile isSpaceChar).reverse

/-- Model of the decimal grammar accepted by
`pd.to_numeric(..., errors='coerce')`: optional sign, digits with at most one
decimal point, surrounding whitespace ignored; anything else (including the
empty string) fails, i.e. coerces to NaN. -/
def parseRat? (s : String) : Option Rat :=
  let cs := trimChars s.toList
  let signAndRest : Rat × List Char :=
    match cs with
    | '-' :: r => (-1, r)
    | '+' :: r => (1, r)
    | _ => (1, cs)
  match signAndRest.2.splitOn '.' with
  | [a] =>
    if a.isEmpty then none
    else (digitsToNat? a).map (fun n => signAndRest.1 * n)
  | [a, b] =>
    if a.isEmpty && b.isEmpty then none
    else
      (digitsToNat? a).bind (fun ia =>
        (digitsToNat? b).map (fun fb =>
          signAndRest.1 * ((ia : Rat) + (fb : Rat) / ((10 : Rat) ^ b.length))))
  | _ => none

/-- `pd.to_numeric(x, errors='coerce')` on a single cell: numeric cells pass
through, text parses or degrades to NaN — never an exception. -/
def toNumericCell : Cell → Cell
  | .n v => .n v
  | .s str => .n (match parseRat? str with
      | some q => .fin q
      | none => .nan)

/-- The column list of `convert_numeric_columns` in deliveryPerc_v2.py and
getStockData_v1.py (fetch_delivery_data.py coerces the first two of these,
DELIV_QTY and DELIV_PER, only). -/
def numericColumns : List String :=
  ["DELIV_QTY", "DELIV_PER", "PREV_CLOSE", "OPEN_PRICE", "HIGH_PRICE", "LOW_PRICE", "CLOSE_PRICE"]

/-- One row of a raw DataFrame as (column name, cell) pairs. -/
abbrev DRow := List (String × Cell)

/-- One iteration of the Python loop body
`df[col] = pd.to_numeric(df[col], errors='coerce')`: the whole table is
rewritten in the single column `c`; a row without that column is untouched,
matching the `if col in df.columns` guard. -/
def applyNumericCol (t : List DRow) (c : String) : List DRow :=
  t.map (fun r => r.map (fun p => if p.1 = c then (p.1, toNumericCell p.2) else p))

/-- `convert_numeric_columns` from deliveryPerc_v2.py lines 37-41 (identical
in getStockData_v1.py lines 30-34): the `for col in [...]` loop over the
numeric columns. -/
def convert_numeric_columns (t : List DRow) : List DRow :=
  numericColumns.foldl applyNumericCol t

/-- The effect of `convert_numeric_columns` on one single cell. -/
def coerceCell (p : String × Cell) : String × Cell :=
  if p.1 ∈ numericColumns then (p.1, toNumericCell p.2) else p

theorem foldl_map_comm {α β : Type} (step : β → α → β) (cols : List α) :
    ∀ t : List β,
      cols.foldl (fun acc c => acc.map (fun x => step x c)) t
        = t.map (fun x => cols.foldl step x) := by
  induction cols with
  | nil => intro t; simp
  | cons c cs ih =>
    intro t
    simp only [List.foldl_cons]
    rw [ih, List.map_map]
    rfl

theorem cell_foldl_eq (p : String × Cell) :
    numericColumns.foldl
        (fun q c => if q.1 = c then (q.1, toNumericCell q.2) else q) p
      = coerceCell p := by
  obtain ⟨name, c⟩ := p
  by_cases h1 : name = "DELIV_QTY"
  · subst h1; simp [numericColumns, coerceCell, List.foldl]
  by_cases h2 : name = "DELIV_PER"
  · subst h2; simp [numericColumns, coerceCell, List.foldl]
  by_cases h3 : name = "PREV_CLOSE"
  · subst h3; simp [numericColumns, coerceCell, List.foldl]
  by_cases h4 : name = "OPEN_PRICE"
  · subst h4; simp [numericColumns, coerceCell, List.foldl]
  by_cases h5 : name = "HIGH_PRICE"
  · subst h5; simp [numericColumns, coerceCell, List.foldl]
  by_cases h6 : name = "LOW_PRICE"
  · subst h6; simp [numericColumns, coerceCell, List.foldl]
  by_cases h7 : name = "CLOSE_PRICE"
  · subst h7; simp [numericColumns, coerceCell, List.foldl]
  simp [numericColumns, coerceCell, List.foldl, h1, h2, h3, h4, h5, h6, h7]

/-- C9: numeric coercion is applied independently per cell with parse-or-NaN
semantics — the columnwise loop equals a pointwise map over all rows and
cells, so a malformed value degrades only its own field to NaN and all other
cells and rows of the batch are untouched; non-numeric columns pass through
unchanged and no input can make the coercion fail. -/
theorem convert_numeric_columns_spec (t : List DRow) :
    convert_numeric_columns t = t.map (fun r => r.map coerceCell)
    ∧ (∀ name str, name ∈ numericColumns → parseRat? str = none →
        coerceCell (name, .s str) = (name, .n .nan))
    ∧ (∀ name c, name ∉ numericColumns → coerceCell (name, c) = (name, c)) := by
  refine ⟨?_, ?_, ?_⟩
  · have h1 : convert_numeric_columns t
        = t.map (fun r => numericColumns.foldl
            (fun row c => row.map (fun p => if p.1 = c then (p.1, toNumericCell p.2) else p))
            r) := by
      unfold convert_numeric_columns applyNumericCol
      exact foldl_map_comm _ numericColumns t
    have h2 : ∀ r : DRow,
        numericColumns.foldl
            (fun row c => row.map (fun p => if p.1 = c then (p.1, toNumericCell p.2) else p))
            r
          = r.map (fun p => numericColumns.foldl
              (fun q c => if q.1 = c then (q.1, toNumericCell q.2) else q) p) :=
      foldl_map_comm _ numericColumns
    rw [h1]
    simp only [h2, cell_foldl_eq]
  · intro name str hmem hp
    simp [coerceCell, hmem, toNumericCell, hp]
  · intro name c h
    simp [coerceCell, h]

theorem convert_numeric_columns_spec_witness :
    convert_numeric_columns [[("DELIV_PER", Cell.s "abc"), ("SERIES", Cell.s "EQ")]]
      = [[("DELIV_PER", Cell.n FVal.nan), ("SERIES", Cell.s "EQ")]]
    ∧ coerceCell ("DELIV_PER", Cell.s "abc") = ("DELIV_PER", Cell.n FVal.nan) := by
  have h := convert_numeric_columns_spec
    [[("DELIV_PER", Cell.s "abc"), ("SERIES", Cell.s "EQ")]]
  refine ⟨?_, h.2.1 "DELIV_PER" "abc" (by decide) (by decide)⟩
  rw [h.1]
  decide

/-- One row of a per-symbol series file, keyed by its trade date (a day
number — the `Date` CSV column in DDMMYYYY text form is a bijective image of
it).  The remaining columns (`DelPerc` in bulkToCsvForChart.py, additionally
the price columns and `Change_Percentage` in getStockData_v1.py) are an
opaque payload: the merge never inspects them. -/
structure SRow (α : Type) where
  date : Nat
  payload : α
deriving DecidableEq

/-- `drop_duplicates(subset=['Date'], keep='last')`: keep, in position order,
the last occurrence of each date. -/
def dedupKeepLast {α : Type} (l : List (SRow α)) : List (SRow α) :=
  l.foldr (fun r acc => if acc.any (fun s => s.date == r.date) then acc else r :: acc) []

theorem dedupKeepLast_cons {α : Type} (r : SRow α) (l : List (SRow α)) :
    dedupKeepLast (r :: l) =
      if (dedupKeepLast l).any (fun s => s.date == r.date) then dedupKeepLast l
      else r :: dedupKeepLast l := rfl

/-- The first record found for a given date (the unique one on deduped
series). -/
def lookupDate {α : Type} (l : List (SRow α)) (d : Nat) : Option (SRow α) :=
  l.find? (fun r => r.date == d)

/-- The last record of a given date: the one `keep='last'` retains. -/
def lookupLast {α : Type} (l : List (SRow α)) (d : Nat) : Option (SRow α) :=
  l.reverse.find? (fun r => r.date == d)

theorem any_date_dedupKeepLast {α : Type} (l : List (SRow α)) :
    ∀ d, (dedupKeepLast l).any (fun s => s.date == d) = l.any (fun s => s.date == d) := by
  induction l with
  | nil => intro d; rfl
  | cons r l ih =>
    intro d
    rw [dedupKeepLast_cons]
    by_cases h : (dedupKeepLast l).any (fun s => s.date == r.date) = true
    · rw [if_pos h, List.any_cons, ih d]
      by_cases hd : (r.date == d) = true
      · rw [beq_iff_eq] at hd
        subst hd
        have h2 : l.any (fun s => s.date == r.date) = true := by rw [← ih]; exact h
        simp [h2]
      · rw [Bool.not_eq_true] at hd
        simp [hd]
    · rw [Bool.not_eq_true] at h
      rw [if_neg (by simp [h]), List.any_cons, List.any_cons, ih d]

theorem dedupKeepLast_pairwise_ne {α : Type} (l : List (SRow α)) :
    (dedupKeepLast l).Pairwise (fun a b => a.date ≠ b.date) := by
  induction l with
  | nil => exact List.Pairwise.nil
  | cons r l ih =>
    rw [dedupKeepLast_cons]
    by_cases h : (dedupKeepLast l).any (fun s => s.date == r.date) = true
    · rw [if_pos h]; exact ih
    · rw [if_neg h]
      refine List.Pairwise.cons ?_ ih
      intro x hx hEq
      apply h
      rw [List.any_eq_true]
      exact ⟨x, hx, by rw [beq_iff_eq]; exact hEq.symm⟩

theorem dedupKeepLast_eq_self {α : Type} {l : List (SRow α)}
    (h : l.Pairwise (fun a b => a.date ≠ b.date)) : dedupKeepLast l = l := by
  induction l with
  | nil => rfl
  | cons r l ih =>
    rw [List.pairwise_cons] at h
    have hfalse : ¬ ((dedupKeepLast l).any (fun s => s.date == r.date) = true) := by
      rw [List.any_eq_true]
      rintro ⟨x, hx, hxd⟩
      rw [ih h.2] at hx
      rw [beq_iff_eq] at hxd
      exact (h.1 x hx) hxd.symm
    rw [dedupKeepLast_cons, if_neg hfalse, ih h.2]

theorem lookupDate_dedupKeepLast {α : Type} (l : List (SRow α)) :
    ∀ d, lookupDate (dedupKeepLast l) d = lookupLast l d := by
  induction l with
  | nil => intro d; rfl
  | cons r l ih =>
    intro d
    rw [dedupKeepLast_cons]
    unfold lookupLast
    rw [List.reverse_cons, List.find?_append]
    by_cases h : (dedupKeepLast l).any (fun s => s.date == r.date) = true
    · rw [if_pos h]
      rw [show lookupDate (dedupKeepLast l) d = lookupLast l d from ih d]
      unfold lookupLast
      by_cases hd : (r.date == d) = true
      · rw [beq_iff_eq] at hd
        subst hd
        have h2 : ∃ x ∈ l.reverse, (x.date == r.date) = true := by
          rw [← List.any_eq_true, List.any_reverse, ← any_date_dedupKeepLast]
          exact h
        obtain ⟨v, hv⟩ := Option.isSome_iff_exists.mp (List.find?_isSome.mpr h2)
        rw [hv]
        rfl
      · have hnone : List.find? (fun s => s.date == d) [r] = none := by
          simp [List.find?, hd]
        rw [hnone, Option.or_none]
    · rw [if_neg h]
      unfold lookupDate
      by_cases hd : (r.date == d) = true
      · rw [List.find?_cons_of_pos (p := fun s : SRow α => s.date == d) _ hd]
        have hnone : List.find? (fun s => s.date == d) l.reverse = none := by
          rw [List.find?_eq_none]
          intro x hx hxd
          apply h
          rw [List.mem_reverse] at hx
          rw [beq_iff_eq] at hxd hd
          rw [any_date_dedupKeepLast, List.any_eq_true]
          exact ⟨x, hx, by rw [beq_iff_eq]; omega⟩
        rw [hnone]
        simp [List.find?, hd, Option.or]
      · rw [List.find?_cons_of_neg (p := fun s : SRow α => s.date == d) _ hd]
        rw [show List.find? (fun r => r.date == d) (dedupKeepLast l) = lookupLast l d from ih d]
        have hnone : List.find? (fun s => s.date == d) [r] = none := by
          simp [List.find?, hd]
        rw [hnone, Option.or_none]
        rfl

theorem lookupDate_eq_some_iff {α : Type} {l : List (SRow α)}
    (h : l.Pairwise (fun a b => a.date ≠ b.date)) {d : Nat} {r : SRow α} :
    lookupDate l d = some r ↔ (r ∈ l ∧ r.date = d) := by
  induction l with
  | nil => simp [lookupDate]
  | cons x l ih =>
    rw [List.pairwise_cons] at h
    unfold lookupDate
    by_cases hx : (x.date == d) = true
    · rw [List.find?_cons_of_pos (p := fun s : SRow α => s.date == d) _ hx]
      rw [beq_iff_eq] at hx
      constructor
      · rintro h'
        injection h' with h'
        subst h'
        exact ⟨List.mem_cons_self _ _, hx⟩
      · rintro ⟨hmem, hrd⟩
        rcases List.mem_cons.mp hmem with h' | h'
        · rw [h']
        · exact absurd (by rw [hx, hrd] : x.date = r.date) (h.1 r h')
    · rw [List.find?_cons_of_neg (p := fun s : SRow α => s.date == d) _ hx]
      rw [show List.find? (fun r => r.date == d) l = lookupDate l d from rfl, ih h.2]
      rw [Bool.not_eq_true, beq_eq_false_iff_ne] at hx
      constructor
      · rintro ⟨hmem, hrd⟩
        exact ⟨List.mem_cons_of_mem x hmem, hrd⟩
      · rintro ⟨hmem, hrd⟩
        rcases List.mem_cons.mp hmem with h' | h'
        · exact absurd (by rw [h'] at hrd; exact hrd) hx
        · exact ⟨h', hrd⟩

theorem lookupDate_eq_none_iff {α : Type} {l : List (SRow α)} {d : Nat} :
    lookupDate l d = none ↔ ∀ r ∈ l, r.date ≠ d := by
  unfold lookupDate
  rw [List.find?_eq_none]
  constructor
  · intro h r hr
    have := h r hr
    rw [Bool.not_eq_true, beq_eq_false_iff_ne] at this
    exact this
  · intro h r hr
    rw [Bool.not_eq_true, beq_eq_false_iff_ne]
    exact h r hr

theorem date_unique {α : Type} {l : List (SRow α)}
    (h : l.Pairwise (fun a b => a.date ≠ b.date))
    {r r' : SRow α} (hr : r ∈ l) (hr' : r' ∈ l) (hd : r.date = r'.date) : r = r' := by
  by_contra hne
  have hsymm : Symmetric (fun a b : SRow α => a.date ≠ b.date) := by
    intro a b hab hEq
    exact hab hEq.symm
  exact (List.Pairwise.forall hsymm h hr hr' hne) hd

instance srowLeTotal (α : Type) : IsTotal (SRow α) (fun a b => a.date ≤ b.date) :=
  ⟨fun a b => Nat.le_total a.date b.date⟩

instance srowLeTrans (α : Type) : IsTrans (SRow α) (fun a b => a.date ≤ b.date) :=
  ⟨fun _ _ _ h1 h2 => Nat.le_trans h1 h2⟩

/-- The merge pipeline of the per-symbol loop when the symbol's file already
exists (bulkToCsvForChart.py lines 72-85; getStockData_v1.py lines 117-124):
`pd.concat([existing_df, symbol_df]).drop_duplicates(subset=['Date'],
keep='last')`, sorted ascending by date, written back in full. -/
def mergeSeries {α : Type} (existing newRecords : List (SRow α)) : List (SRow α) :=
  List.insertionSort (fun a b => a.date ≤ b.date) (dedupKeepLast (existing ++ newRecords))

/-- The whole per-symbol branch including the `else` arm: when the file is
absent the new rows are written as-is (bulkToCsvForChart.py lines 87-90;
getStockData_v1.py lines 126-128). -/
def mergeStep {α : Type} (existing : Option (List (SRow α))) (newRecords : List (SRow α)) :
    List (SRow α) :=
  match existing with
  | some ex => mergeSeries ex newRecords
  | none => newRecords

theorem mergeSeries_perm {α : Type} (ex new : List (SRow α)) :
    (mergeSeries ex new).Perm (dedupKeepLast (ex ++ new)) :=
  List.perm_insertionSort _ _

theorem date_ne_symm {α : Type} :
    ∀ {x y : SRow α}, x.date ≠ y.date → y.date ≠ x.date :=
  fun h hEq => h hEq.symm

theorem mergeSeries_pairwise_ne {α : Type} (ex new : List (SRow α)) :
    (mergeSeries ex new).Pairwise (fun a b => a.date ≠ b.date) :=
  ((mergeSeries_perm ex new).pairwise_iff date_ne_symm).mpr
    (dedupKeepLast_pairwise_ne (ex ++ new))

theorem mergeSeries_sorted {α : Type} (ex new : List (SRow α)) :
    (mergeSeries ex new).Pairwise (fun a b => a.date ≤ b.date) :=
  List.sorted_insertionSort _ _

theorem mergeSeries_pairwise_lt {α : Type} (ex new : List (SRow α)) :
    (mergeSeries ex new).Pairwise (fun a b => a.date < b.date) :=
  ((mergeSeries_sorted ex new).and (mergeSeries_pairwise_ne ex new)).imp
    (fun h => Nat.lt_of_le_of_ne h.1 h.2)

theorem lookupDate_perm {α : Type} {l l' : List (SRow α)} (hp : l.Perm l')
    (h' : l'.Pairwise (fun a b => a.date ≠ b.date)) (d : Nat) :
    lookupDate l d = lookupDate l' d := by
  have h : l.Pairwise (fun a b => a.date ≠ b.date) := (hp.pairwise_iff date_ne_symm).mpr h'
  cases hX : lookupDate l' d with
  | some r =>
    have hr := (lookupDate_eq_some_iff h').mp hX
    exact (lookupDate_eq_some_iff h).mpr ⟨hp.mem_iff.mpr hr.1, hr.2⟩
  | none =>
    have hn := lookupDate_eq_none_iff.mp hX
    exact lookupDate_eq_none_iff.mpr (fun r hr => hn r (hp.mem_iff.mp hr))

theorem lookupLast_append {α : Type} (l₁ l₂ : List (SRow α)) (d : Nat) :
    lookupLast (l₁ ++ l₂) d = (lookupLast l₂ d).or (lookupLast l₁ d) := by
  unfold lookupLast
  rw [List.reverse_append, List.find?_append]

theorem lookupLast_eq_lookupDate {α : Type} {l : List (SRow α)}
    (h : l.Pairwise (fun a b => a.date ≠ b.date)) (d : Nat) :
    lookupLast l d = lookupDate l d := by
  have hrev : l.reverse.Pairwise (fun a b : SRow α => a.date ≠ b.date) :=
    List.pairwise_reverse.mpr (h.imp date_ne_symm)
  cases hX : lookupDate l d with
  | some r =>
    have hr := (lookupDate_eq_some_iff h).mp hX
    exact (lookupDate_eq_some_iff hrev).mpr ⟨List.mem_reverse.mpr hr.1, hr.2⟩
  | none =>
    have hn := lookupDate_eq_none_iff.mp hX
    exact lookupDate_eq_none_iff.mpr (fun r hr => hn r (List.mem_reverse.mp hr))

theorem lookupDate_mergeSeries {α : Type} (ex new : List (SRow α)) (d : Nat) :
    lookupDate (mergeSeries ex new) d = (lookupLast new d).or (lookupLast ex d) := by
  rw [lookupDate_perm (mergeSeries_perm ex new) (dedupKeepLast_pairwise_ne _) d,
    lookupDate_dedupKeepLast, lookupLast_append]

theorem mem_mergeSeries_iff {α : Type} {ex new : List (SRow α)} {r : SRow α} :
    r ∈ mergeSeries ex new ↔ lookupLast (ex ++ new) r.date = some r := by
  rw [(mergeSeries_perm ex new).mem_iff, ← lookupDate_dedupKeepLast,
    lookupDate_eq_some_iff (dedupKeepLast_pairwise_ne _)]
  simp

theorem eq_of_pairwise_lt_of_mem_iff {α : Type} :
    ∀ {l l' : List (SRow α)},
      l.Pairwise (fun a b => a.date < b.date) →
      l'.Pairwise (fun a b => a.date < b.date) →
      (∀ r, r ∈ l ↔ r ∈ l') → l = l' := by
  intro l
  induction l with
  | nil =>
    intro l' _ _ hm
    cases l' with
    | nil => rfl
    | cons x t => exact absurd ((hm x).mpr (List.mem_cons_self _ _)) (List.not_mem_nil x)
  | cons a t ih =>
    intro l' hl hl' hm
    cases l' with
    | nil => exact absurd ((hm a).mp (List.mem_cons_self _ _)) (List.not_mem_nil a)
    | cons b t' =>
      have hab : a = b := by
        rcases List.mem_cons.mp ((hm a).mp (List.mem_cons_self _ _)) with h | h
        · exact h
        · have hba : b.date < a.date := (List.pairwise_cons.mp hl').1 a h
          rcases List.mem_cons.mp ((hm b).mpr (List.mem_cons_self _ _)) with h2 | h2
          · exact h2.symm
          · have hab2 : a.date < b.date := (List.pairwise_cons.mp hl).1 b h2
            omega
      subst hab
      have htail : ∀ r, r ∈ t ↔ r ∈ t' := by
        intro r
        constructor
        · intro hr
          rcases List.mem_cons.mp ((hm r).mp (List.mem_cons_of_mem a hr)) with h | h
          · subst h
            have := (List.pairwise_cons.mp hl).1 r hr
            omega
          · exact h
        · intro hr
          rcases List.mem_cons.mp ((hm r).mpr (List.mem_cons_of_mem a hr)) with h | h
          · subst h
            have := (List.pairwise_cons.mp hl').1 r hr
            omega
          · exact h
      rw [ih (List.pairwise_cons.mp hl).2 (List.pairwise_cons.mp hl').2 htail]

/-- C1: merging an ordered sequence of new records into a symbol's persisted
series loads the existing series when the file is present (the written result
coincides with merging against the empty series otherwise), concatenates
existing then new, drops duplicate dates keeping the new record on a date
conflict (last-write-wins: the lookup of every date present in `new` returns
the new record, so a re-fetched date's revised value replaces the stored
one without a second row), sorts ascending by date, and the full series is
the returned value. -/
theorem mergeStep_spec {α : Type} (existing : Option (List (SRow α)))
    (new : List (SRow α)) (hNew : new.Pairwise (fun a b => a.date < b.date)) :
    mergeStep existing new = mergeSeries (existing.getD []) new
    ∧ (∀ d, lookupDate (mergeSeries (existing.getD []) new) d
        = (lookupLast new d).or (lookupLast (existing.getD []) d))
    ∧ (mergeStep existing new).Pairwise (fun a b => a.date < b.date) := by
  refine ⟨?_, fun d => lookupDate_mergeSeries _ _ d, ?_⟩
  · cases existing with
    | some ex => rfl
    | none =>
      show new = mergeSeries [] new
      unfold mergeSeries
      rw [List.nil_append,
        dedupKeepLast_eq_self (hNew.imp (fun h => Nat.ne_of_lt h))]
      exact (List.Sorted.insertionSort_eq (hNew.imp (fun h => Nat.le_of_lt h))).symm
  · cases existing with
    | some ex => exact mergeSeries_pairwise_lt ex new
    | none => exact hNew

theorem mergeStep_spec_witness :
    mergeStep (some [⟨1, 10⟩, ⟨2, 20⟩]) [⟨2, 50⟩, ⟨3, 30⟩]
        = mergeSeries [⟨1, 10⟩, ⟨2, 20⟩] ([⟨2, 50⟩, ⟨3, 30⟩] : List (SRow Nat))
    ∧ lookupDate (mergeSeries [⟨1, 10⟩, ⟨2, 20⟩] ([⟨2, 50⟩, ⟨3, 30⟩] : List (SRow Nat))) 2
        = some ⟨2, 50⟩ := by
  have h := mergeStep_spec (α := Nat) (some [⟨1, 10⟩, ⟨2, 20⟩]) [⟨2, 50⟩, ⟨3, 30⟩] (by decide)
  have h2 := h.2.1 2
  simp only [Option.getD_some] at h h2
  refine ⟨h.1, ?_⟩
  rw [h2]
  decide

/-- C4: running the per-symbol merge twice with the same new records against
the same prior series yields the same final persisted series as running it
once, for every prior series and every sequence of new records. -/
theorem mergeSeries_idempotent {α : Type} (prior newRecords : List (SRow α)) :
    mergeSeries (mergeSeries prior newRecords) newRecords
      = mergeSeries prior newRecords := by
  apply eq_of_pairwise_lt_of_mem_iff (mergeSeries_pairwise_lt _ _)
    (mergeSeries_pairwise_lt _ _)
  intro r
  rw [mem_mergeSeries_iff, mem_mergeSeries_iff]
  rw [lookupLast_append, lookupLast_append,
    lookupLast_eq_lookupDate (mergeSeries_pairwise_ne prior newRecords),
    lookupDate_mergeSeries]
  cases lookupLast newRecords r.date with
  | some v => simp [Option.or]
  | none => simp [Option.or]

/-- C5: after every merge through the concat/dedup/sort path, the symbol's
persisted series has strictly increasing dates with no duplicate date, so at
most one record exists per date; this holds for all inputs. -/
theorem mergeSeries_invariant {α : Type} (existing newRecords : List (SRow α)) :
    (mergeSeries existing newRecords).Pairwise (fun a b => a.date < b.date)
    ∧ ∀ r ∈ mergeSeries existing newRecords, ∀ r' ∈ mergeSeries existing newRecords,
        r.date = r'.date → r = r' := by
  refine ⟨mergeSeries_pairwise_lt _ _, ?_⟩
  intro r hr r' hr' hd
  exact date_unique (mergeSeries_pairwise_ne existing newRecords) hr hr' hd

theorem mergeSeries_invariant_witness :
    mergeSeries [⟨3, 7⟩] ([⟨1, 9⟩, ⟨1, 4⟩] : List (SRow Nat)) = [⟨1, 4⟩, ⟨3, 7⟩]
    ∧ (⟨1, 4⟩ : SRow Nat) = ⟨1, 4⟩ :=
  ⟨by decide,
    (mergeSeries_invariant [⟨3, 7⟩] [⟨1, 9⟩, ⟨1, 4⟩]).2
      ⟨1, 4⟩ (by decide) ⟨1, 4⟩ (by decide) rfl⟩

/-- A raw daily CSV as parsed by `pd.read_csv`: header names plus rows of
string cells. -/
structure DailyCsv where
  header : List String
  rows : List (List String)
deriving DecidableEq

/-- Classification of one date's fetch (getStockData_v1.py lines 50-56;
the same shape in the other fetch scripts): a transport failure is caught by
the `except` arm; an empty body or a body carrying a sentinel error text is
treated as no data; otherwise the body parses into a table. -/
inductive FetchResult where
  | transportError : FetchResult
  | noData : FetchResult
  | data : DailyCsv → FetchResult

/-- `str.strip()` on a cell or column name. -/
def stripStr (s : String) : String := String.mk (trimChars s.toList)

/-- A normalized equity record of getStockData_v1.py after projection to the
required columns and derivation of `Change_Percentage` (lines 63-70). -/
structure NormRec where
  symbol : String
  tradeDate : Nat
  delivPer : FVal
  prevClose : FVal
  openPrice : FVal
  highPrice : FVal
  lowPrice : FVal
  closePrice : FVal
  changePercent : FVal
deriving DecidableEq

def requiredColumnsV1 : List String :=
  ["SYMBOL", "TRADE_DATE", "DELIV_PER", "PREV_CLOSE", "OPEN_PRICE", "HIGH_PRICE",
   "LOW_PRICE", "CLOSE_PRICE"]

/-- The text of the cell of column `c` in row `r`, given the header. -/
def cellStr (header : List String) (r : List String) (c : String) : String :=
  match header.findIdx? (fun h => h == c) with
  | some i => r.getD i ""
  | none => ""

/-- `pd.to_numeric(errors='coerce')` on one text cell. -/
def toFVal (s : String) : FVal :=
  match parseRat? s with
  | some q => .fin q
  | none => .nan

def mkRec (header : List String) (r : List String) (d : Nat) : NormRec :=
  { symbol := cellStr header r "SYMBOL"
    tradeDate := d
    delivPer := toFVal (cellStr header r "DELIV_PER")
    prevClose := toFVal (cellStr header r "PREV_CLOSE")
    openPrice := toFVal (cellStr header r "OPEN_PRICE")
    highPrice := toFVal (cellStr header r "HIGH_PRICE")
    lowPrice := toFVal (cellStr header r "LOW_PRICE")
    closePrice := toFVal (cellStr header r "CLOSE_PRICE")
    changePercent := change_Percentage (toFVal (cellStr header r "CLOSE_PRICE"))
      (toFVal (cellStr header r "PREV_CLOSE")) }

/-- One date of the fetch loop of getStockData_v1.py (lines 47-74): errors
and no-data bodies contribute nothing; a parsed table has its column names
stripped and is filtered to rows whose `SERIES` strips to `EQ`; the date is
attached as `TRADE_DATE`; the date contributes records only when the table,
the filter result and the required column set are all usable.  (The numeric
coercion runs once on read and once after projection; cell values are
coerced at projection here, which yields the same records.) -/
def processDateV1 (d : Nat) (res : FetchResult) : List NormRec :=
  match res with
  | .transportError => []
  | .noData => []
  | .data t =>
    if t.rows.isEmpty then []
    else
      match (t.header.map stripStr).findIdx? (fun h => h == "SERIES") with
      | none => []
      | some i =>
        if (t.rows.filter (fun r => stripStr (r.getD i "") == "EQ")).isEmpty then []
        else if requiredColumnsV1.all
            (fun c => c == "TRADE_DATE" || (t.header.map stripStr).contains c) then
          (t.rows.filter (fun r => stripStr (r.getD i "") == "EQ")).map
            (fun r => mkRec (t.header.map stripStr) r d)
        else []

/-- The fetch loop: per-date frames accumulate in window order and are
concatenated (`newly_fetched_data_frames`, then `pd.concat`). -/
def fetchLoopV1 (fetch : Nat → FetchResult) (window : List Nat) : List NormRec :=
  window.flatMap (fun d => processDateV1 d (fetch d))

/-- `pd.to_datetime(combined_df['TRADE_DATE']).max()` over fetched records. -/
def datesMax (recs : List NormRec) : Nat :=
  recs.foldl (fun m r => Nat.max m r.tradeDate) 0

/-- pandas `Series.unique().tolist()`: first-occurrence order. -/
def uniqueFirst (l : List String) : List String :=
  l.foldl (fun acc s => if s ∈ acc then acc else acc ++ [s]) []

/-- `df_filtered`: the fetched records strictly newer than the prior
watermark (all of them when there is no usable prior date). -/
def newerThan (priorLast : Option Nat) (recs : List NormRec) : List NormRec :=
  match priorLast with
  | some l => recs.filter (fun r => l < r.tradeDate)
  | none => recs

/-- End-of-run stage of getStockData_v1.py (lines 85-140): nothing is
written when no records were fetched; otherwise records strictly newer than
the manifest's `LastDateScanned` (all records when it is absent or
unreadable) drive the per-symbol merges, and — only when that filtered set
is non-empty — the manifest is rewritten once with the unique symbols and
the maximum `TRADE_DATE` of the fetched records. -/
def v1FinalManifest (priorLast : Option Nat) (recs : List NormRec) :
    Option (List String × Nat) :=
  if recs.isEmpty then none
  else
    if (newerThan priorLast recs).isEmpty then none
    else some (uniqueFirst (recs.map (fun r => r.symbol)), datesMax recs)

/-- The symbols whose per-symbol files get rewritten in the same stage. -/
def v1SymbolWrites (priorLast : Option Nat) (recs : List NormRec) : List String :=
  if recs.isEmpty then []
  else
    if (newerThan priorLast recs).isEmpty then []
    else uniqueFirst ((newerThan priorLast recs).map (fun r => r.symbol))

theorem processDateV1_date {d : Nat} {res : FetchResult} {r : NormRec}
    (h : r ∈ processDateV1 d res) : r.tradeDate = d := by
  cases res with
  | transportError => exact absurd h (List.not_mem_nil r)
  | noData => exact absurd h (List.not_mem_nil r)
  | data t =>
    simp only [processDateV1] at h
    split at h
    · exact absurd h (List.not_mem_nil r)
    · split at h
      · exact absurd h (List.not_mem_nil r)
      · split at h
        · exact absurd h (List.not_mem_nil r)
        · split at h
          · obtain ⟨x, _, rfl⟩ := List.mem_map.mp h
            rfl
          · exact absurd h (List.not_mem_nil r)

theorem foldl_max_le_init (l : List NormRec) :
    ∀ acc, acc ≤ l.foldl (fun m r => Nat.max m r.tradeDate) acc := by
  induction l with
  | nil => intro acc; exact Nat.le_refl _
  | cons r l ih =>
    intro acc
    exact Nat.le_trans (Nat.le_max_left acc r.tradeDate) (ih _)

theorem mem_le_foldl_max (l : List NormRec) :
    ∀ acc, ∀ r ∈ l, r.tradeDate ≤ l.foldl (fun m x => Nat.max m x.tradeDate) acc := by
  induction l with
  | nil => intro acc r hr; exact absurd hr (List.not_mem_nil r)
  | cons x l ih =>
    intro acc r hr
    rcases List.mem_cons.mp hr with hr' | hr'
    · subst hr'
      exact Nat.le_trans (Nat.le_max_right acc r.tradeDate) (foldl_max_le_init l _)
    · exact ih _ r hr'

theorem foldl_max_cases (l : List NormRec) :
    ∀ acc, l.foldl (fun m x => Nat.max m x.tradeDate) acc = acc
      ∨ ∃ r ∈ l, l.foldl (fun m x => Nat.max m x.tradeDate) acc = r.tradeDate := by
  induction l with
  | nil => intro acc; exact Or.inl rfl
  | cons x l ih =>
    intro acc
    rcases ih (Nat.max acc x.tradeDate) with h | h
    · rcases Nat.le_total acc x.tradeDate with hle | hle
      · right
        refine ⟨x, List.mem_cons_self _ _, ?_⟩
        rw [List.foldl_cons, h]
        exact Nat.max_eq_right hle
      · left
        rw [List.foldl_cons, h]
        exact Nat.max_eq_left hle
    · obtain ⟨r, hr, hx⟩ := h
      right
      exact ⟨r, List.mem_cons_of_mem _ hr, by rw [List.foldl_cons]; exact hx⟩

theorem datesMax_attained {l : List NormRec} (h : l ≠ []) :
    ∃ r ∈ l, r.tradeDate = datesMax l := by
  unfold datesMax
  rcases foldl_max_cases l 0 with h0 | h0
  · cases l with
    | nil => exact absurd rfl h
    | cons x t =>
      refine ⟨x, List.mem_cons_self _ _, ?_⟩
      have hle := mem_le_foldl_max (x :: t) 0 x (List.mem_cons_self _ _)
      omega
  · obtain ⟨r, hr, hx⟩ := h0
    exact ⟨r, hr, hx.symm⟩

theorem le_datesMax {l : List NormRec} {r : NormRec} (h : r ∈ l) :
    r.tradeDate ≤ datesMax l :=
  mem_le_foldl_max l 0 r h

theorem v1FinalManifest_watermark {priorLast : Option Nat} {recs : List NormRec}
    {symbols : List String} {w : Nat}
    (h : v1FinalManifest priorLast recs = some (symbols, w)) :
    w = datesMax recs ∧ recs ≠ [] := by
  unfold v1FinalManifest at h
  split at h
  · exact absurd h (by simp)
  · split at h
    · exact absurd h (by simp)
    · next hne _ =>
      refine ⟨?_, by simpa [List.isEmpty_iff] using hne⟩
      have := (Option.some.injEq _ _).mp h
      exact (congrArg Prod.snd this).symm

/-- A one-row equity table used in concrete runs. -/
def sampleCsv : DailyCsv :=
  ⟨["SYMBOL", "SERIES", "DELIV_PER", "PREV_CLOSE", "OPEN_PRICE", "HIGH_PRICE",
    "LOW_PRICE", "CLOSE_PRICE"],
   [["ABC", "EQ", "45", "100", "101", "102", "99", "104"]]⟩

/-- A source that yields data on one day and a no-data body on every other
day. -/
def sampleFetch (dataDay : Nat) : Nat → FetchResult :=
  fun d => if d = dataDay then .data sampleCsv else .noData

/-- C2 is false of the code: in a run of getStockData_v1 whose fetch window
is the two trading days 3 and 4 (as produced by the calendar), where day 3
yields data and day 4 legitimately returns "no data", the committed
`LastDateScanned` is 3 — the latest date that yielded data — and not 4, the
latest date that was part of the fetch window: the trailing no-data date
does not advance the watermark. -/
theorem watermark_latest_attempted_counterexample :
    generate_valid_dates 3 4 [] = [3, 4]
    ∧ v1FinalManifest none (fetchLoopV1 (sampleFetch 3) (generate_valid_dates 3 4 []))
        = some (["ABC"], 3)
    ∧ (3 : Nat) ≠ 4 := by
  refine ⟨by decide, by decide, by decide⟩

/-- C2 (amended): when getStockData_v1 commits the manifest, the committed
`LastDateScanned` is the maximum trade date among the records the run
actually fetched: it is attained by a fetched record, bounds every fetched
record, and every fetched record's date belongs to the fetch window — so the
watermark advances to the latest date that yielded data, not to the latest
date of the window. -/
theorem watermark_max_fetched_date (fetch : Nat → FetchResult) (window : List Nat)
    (priorLast : Option Nat) (symbols : List String) (w : Nat)
    (h : v1FinalManifest priorLast (fetchLoopV1 fetch window) = some (symbols, w)) :
    (∃ r ∈ fetchLoopV1 fetch window, r.tradeDate = w)
    ∧ (∀ r ∈ fetchLoopV1 fetch window, r.tradeDate ≤ w)
    ∧ (∀ r ∈ fetchLoopV1 fetch window, r.tradeDate ∈ window) := by
  obtain ⟨hw, hne⟩ := v1FinalManifest_watermark h
  subst hw
  refine ⟨datesMax_attained hne, fun r hr => le_datesMax hr, ?_⟩
  intro r hr
  obtain ⟨d, hd, hrd⟩ := List.mem_flatMap.mp hr
  rw [processDateV1_date hrd]
  exact hd

theorem watermark_max_fetched_date_witness :
    (∃ r ∈ fetchLoopV1 (sampleFetch 3) [3, 4], r.tradeDate = 3)
    ∧ ∀ r ∈ fetchLoopV1 (sampleFetch 3) [3, 4], r.tradeDate ∈ [3, 4] := by
  have h := watermark_max_fetched_date (sampleFetch 3) [3, 4] none ["ABC"] 3 (by decide)
  exact ⟨h.1, h.2.2⟩

/-- A row of the combined CSV consumed by bulkToCsvForChart.py. -/
structure BRow where
  symbol : String
  tradeDate : Nat
  delivPer : FVal
deriving DecidableEq

/-- bulkToCsvForChart.py lines 94-108: at the end of every run the script
rewrites 0_symbolInfo.json with the unique symbols and the maximum
TRADE_DATE of the *entire input file* — unconditionally, even when the
incremental filter selected nothing. -/
def bulkManifestAfter (input : List BRow) : List String × Nat :=
  (uniqueFirst (input.map (fun r => r.symbol)),
   input.foldl (fun m r => Nat.max m r.tradeDate) 0)

/-- bulkToCsvForChart.py lines 44-92: per-symbol files are written only for
rows strictly newer than the manifest's prior `LastDateScanned` (all rows
when none is recorded); when the filter selects nothing, no symbol file is
touched. -/
def bulkSymbolWrites (priorLast : Option Nat) (input : List BRow) : List String :=
  let filtered : List BRow := match priorLast with
    | some l => input.filter (fun r : BRow => l < r.tradeDate)
    | none => input
  uniqueFirst (filtered.map (fun r : BRow => r.symbol))

/-- C7 is false of bulkToCsvForChart.py: with a prior watermark of 5 and an
input file whose only row is dated 3, the run processes nothing — no
per-symbol file is written — yet the manifest is still rewritten, and the
committed `LastDateScanned` 3 is *below* the pre-run value 5. -/
theorem bulk_manifest_unconditional_counterexample :
    bulkSymbolWrites (some 5) [⟨"A", 3, .nan⟩] = []
    ∧ bulkManifestAfter [⟨"A", 3, .nan⟩] = (["A"], 3)
    ∧ (3 : Nat) < 5 := by
  refine ⟨by decide, by decide, by decide⟩

/-- C7 (amended): in getStockData_v1 the manifest commit happens at most
once, at the very end of the run, and only when at least one fetched record
is newer than the pre-run watermark; a run with an empty fetch window
fetches nothing and leaves the manifest and all per-symbol files untouched;
and a successful commit records a `LastDateScanned` strictly above the
pre-run value.  (bulkToCsvForChart.py instead rewrites the manifest
unconditionally — see the counterexample.) -/
theorem v1_manifest_commit_spec (fetch : Nat → FetchResult) (priorLast : Option Nat)
    (recs : List NormRec) :
    (fetchLoopV1 fetch [] = []
      ∧ v1FinalManifest priorLast (fetchLoopV1 fetch []) = none
      ∧ v1SymbolWrites priorLast (fetchLoopV1 fetch []) = [])
    ∧ (∀ l symbols w, v1FinalManifest (some l) recs = some (symbols, w) → l < w) := by
  constructor
  · exact ⟨rfl, rfl, rfl⟩
  · intro l symbols w h
    have hw := (v1FinalManifest_watermark h).1
    unfold v1FinalManifest at h
    split at h
    · exact absurd h (by simp)
    · split at h
      · exact absurd h (by simp)
      · next hne =>
        have hne' : newerThan (some l) recs ≠ [] := by
          simpa [List.isEmpty_iff] using hne
        obtain ⟨r, hr⟩ := List.exists_mem_of_ne_nil _ hne'
        unfold newerThan at hr
        rw [List.mem_filter] at hr
        have hlt : l < r.tradeDate := by
          have := hr.2
          simpa using this
        have hle : r.tradeDate ≤ datesMax recs := le_datesMax hr.1
        omega

theorem v1_manifest_commit_spec_witness :
    v1FinalManifest (some 7) (fetchLoopV1 (fun _ => FetchResult.noData) []) = none
    ∧ (7 : Nat) < 9 := by
  have h := v1_manifest_commit_spec (fun _ => FetchResult.noData) (some 7)
    [⟨"A", 9, .nan, .nan, .nan, .nan, .nan, .nan, .nan⟩]
  refine ⟨h.1.2.1, ?_⟩
  exact h.2 7 ["A"] 9 (by decide)

/-- The fixed holiday table `(month, day)` shared by the fetch scripts:
Jan 26, Aug 15, Oct 2. -/
def holidays_md : List (Nat × Nat) := [(1, 26), (8, 15), (10, 2)]

/-- `initial_start_date_str = '2019-10-01'` of getStockData_v1.py. -/
def initialStartV1 : Nat := toDayNum 2019 10 1

/-- `initial_start_date_str = '2021-01-01'` of deliveryPerc_v2.py. -/
def initialStartV2 : Nat := toDayNum 2021 1 1

/-- Prior combined-CSV state of deliveryPerc_v2.py: the file may be absent,
present but without a usable TRADE_DATE column, or present with a maximum
trade date. -/
inductive PriorCombined where
  | absent : PriorCombined
  | invalid : PriorCombined
  | present : Nat → PriorCombined

/-- Fetch-window determination of deliveryPerc_v2.py (lines 53-87): initial
fetch from the configured start date when no usable prior data exists;
otherwise nothing when the latest stored date is today or later, and the
calendar window from the day after the latest stored date to today
otherwise. -/
def fetchWindowV2 (st : PriorCombined) (today : Nat) : List Nat :=
  match st with
  | .absent => generate_valid_dates initialStartV2 today holidays_md
  | .invalid => generate_valid_dates initialStartV2 today holidays_md
  | .present latest =>
    if latest = today then []
    else if today < latest then []
    else generate_valid_dates (latest + 1) today holidays_md

/-- Fetch-window determination of getStockData_v1.py (lines 42-44): the
script always performs the initial fetch from 2019-10-01 up to today — the
manifest (read later in the run) plays no part in the window. -/
def fetchWindowV1 (_lastScanned : Option Nat) (today : Nat) : List Nat :=
  generate_valid_dates initialStartV1 today holidays_md

/-- C6 is false of getStockData_v1.py: with a manifest recording
`lastDateScanned` = 2019-10-01 (a Tuesday) and today = 2019-10-01, the
claimed window (start = lastDateScanned + 1 > today) is empty, yet the code
fetches 2019-10-01 again — its window always starts at the configured
initial start date, so the run fetches a date that is not newer than what
was previously recorded. -/
theorem fetchWindowV1_refetches_counterexample :
    fetchWindowV1 (some initialStartV1) initialStartV1 = [initialStartV1]
    ∧ generate_valid_dates (initialStartV1 + 1) initialStartV1 holidays_md = []
    ∧ ¬ initialStartV1 < initialStartV1 := by
  refine ⟨by decide, generate_valid_dates_nil (by omega) _, by omega⟩

/-- C6 (amended): deliveryPerc_v2 implements the claimed window rule — the
fetch window starts at lastDateScanned + 1 when prior state is present and
at the configured initial start date otherwise, ends at today, is empty
when start > end, and every date it fetches is newer than the prior
watermark.  getStockData_v1, in contrast, always starts at its initial
start date (see the counterexample). -/
theorem fetchWindowV2_spec (latest today : Nat) :
    fetchWindowV2 (.present latest) today
        = generate_valid_dates (latest + 1) today holidays_md
    ∧ fetchWindowV2 .absent today = generate_valid_dates initialStartV2 today holidays_md
    ∧ (∀ d ∈ fetchWindowV2 (.present latest) today, latest < d ∧ d ≤ today)
    ∧ (today < latest + 1 → fetchWindowV2 (.present latest) today = []) := by
  have hwin : fetchWindowV2 (.present latest) today
      = generate_valid_dates (latest + 1) today holidays_md := by
    simp only [fetchWindowV2]
    by_cases h1 : latest = today
    · subst h1
      rw [if_pos rfl, generate_valid_dates_nil (by omega) _]
    · rw [if_neg h1]
      by_cases h2 : today < latest
      · rw [if_pos h2, generate_valid_dates_nil (by omega) _]
      · rw [if_neg h2]
  refine ⟨hwin, rfl, ?_, ?_⟩
  · intro d hd
    rw [hwin] at hd
    have h := mem_generate_valid_dates.mp hd
    exact ⟨by omega, h.2.1⟩
  · intro h
    rw [hwin]
    exact generate_valid_dates_nil (by omega) _

theorem fetchWindowV2_spec_witness :
    fetchWindowV2 (.present 9) 6 = [] ∧ fetchWindowV2 (.present 3) 4 = [4] := by
  have h := fetchWindowV2_spec 9 6
  refine ⟨h.2.2.2 (by omega), by decide⟩

/-- `initial_start_date_str = '2019-10-01'` of fetch_delivery_data.py. -/
def initialStartFDD : Nat := toDayNum 2019 10 1

/-- `initial_end_date_str = '2026-02-05'` of fetch_delivery_data.py (the
initial fetch uses this fixed end, not today). -/
def initialEndFDD : Nat := toDayNum 2026 2 5

/-- Prior combined-CSV state of fetch_delivery_data.py. -/
inductive PriorFDD where
  | absent : PriorFDD
  | invalid : PriorFDD
  | present : Nat → PriorFDD

/-- Window determination of fetch_delivery_data.py (lines 52-92): an absent
combined CSV triggers the initial fetch over the fixed range; otherwise the
next start is latest + 1 (the initial start when TRADE_DATE is unusable),
and — before anything else — fetching is skipped entirely when the current
local hour is before 18 and the start is not after today; a future start
also fetches nothing; otherwise the calendar window runs to today. -/
def fetchWindowFDD (st : PriorFDD) (hour today : Nat) : List Nat :=
  match st with
  | .absent => generate_valid_dates initialStartFDD initialEndFDD holidays_md
  | .invalid =>
    if hour < 18 ∧ initialStartFDD ≤ today then []
    else if today < initialStartFDD then []
    else generate_valid_dates initialStartFDD today holidays_md
  | .present latest =>
    if hour < 18 ∧ latest + 1 ≤ today then []
    else if today < latest + 1 then []
    else generate_valid_dates (latest + 1) today holidays_md

/-- A fetched equity row of fetch_delivery_data.py: the raw cells of the row
tagged with its trade date (this script keeps every column). -/
structure FddRow where
  cells : List String
  tradeDate : Nat
deriving DecidableEq

/-- One date of the fetch loop of fetch_delivery_data.py (lines 95-149):
errors and no-data bodies contribute nothing; otherwise the stripped table
is filtered to `SERIES == 'EQ'` rows, each tagged with the date. -/
def processDateFDD (d : Nat) (res : FetchResult) : List FddRow :=
  match res with
  | .transportError => []
  | .noData => []
  | .data t =>
    if t.rows.isEmpty then []
    else
      match (t.header.map stripStr).findIdx? (fun h => h == "SERIES") with
      | none => []
      | some i =>
        (t.rows.filter (fun r => stripStr (r.getD i "") == "EQ")).map
          (fun r => ⟨r, d⟩)

def fetchLoopFDD (fetch : Nat → FetchResult) (window : List Nat) : List FddRow :=
  window.flatMap (fun d => processDateFDD d (fetch d))

/-- Steps 8-10 of fetch_delivery_data.py: the saved data is the existing
rows followed by the newly fetched rows (all branch cases of step 9 reduce
to plain concatenation). -/
def finalDataFDD (existingRows fetched : List FddRow) : List FddRow :=
  existingRows ++ fetched

/-- C10: in the incremental variant (fetch_delivery_data.py), when the
combined output file exists, the current local hour is before 18, and the
next fetch start date is not after today, the run fetches zero dates —
including past eligible dates that the ungated window would contain — and
the persisted data after the run equals the existing data.  The spec's
window rule (§4.6) has no such time-of-day gate. -/
theorem fdd_hour_gate_spec (latest hour today : Nat) (existingRows : List FddRow)
    (fetch : Nat → FetchResult)
    (hHour : hour < 18) (hStart : latest + 1 ≤ today) :
    fetchWindowFDD (.present latest) hour today = []
    ∧ fetchLoopFDD fetch (fetchWindowFDD (.present latest) hour today) = []
    ∧ finalDataFDD existingRows
        (fetchLoopFDD fetch (fetchWindowFDD (.present latest) hour today))
      = existingRows := by
  have hw : fetchWindowFDD (.present latest) hour today = [] := by
    simp only [fetchWindowFDD]
    rw [if_pos ⟨hHour, hStart⟩]
  refine ⟨hw, ?_, ?_⟩
  · rw [hw]
    rfl
  · rw [hw]
    show existingRows ++ [] = existingRows
    exact List.append_nil _

theorem fdd_hour_gate_spec_witness :
    fetchWindowFDD (.present (toDayNum 2019 9 30)) 10 initialStartFDD = []
    ∧ generate_valid_dates (toDayNum 2019 9 30 + 1) initialStartFDD holidays_md
        = [initialStartFDD] := by
  have h := fdd_hour_gate_spec (toDayNum 2019 9 30) 10 initialStartFDD []
    (fun _ => FetchResult.noData) (by omega) (by decide)
  exact ⟨h.1, by decide⟩
